import Mathlib

/-!
Verification development for the STARK website-cloner pipeline
(`src/api/copy.py`).  The Python source is shallowly embedded: pure string
manipulation (URL parsing and joining per `urllib.parse`, local path
mapping, the regular-expression scanners) is translated into executable
Lean functions over `List Char`, and the SSE pipeline `sse_generator` is
modelled as a function from a run configuration (the outcome of every
external I/O action: the root fetch, each stylesheet fetch, each asset
download, the rewrite / manifest / zip steps) to the emitted event list
and final state.  HTML parsing by BeautifulSoup is abstracted: the set of
asset URLs found in the markup and the list of stylesheet links enter the
configuration as data, while the anchor-href filter, the CSS `url(...)` /
`@import` scanners and the rewriting of attribute values are embedded
directly.  The model covers the `http`/`https` URLs the cloner works
with; URL parameter splitting (`;`-params) is not modelled since no input
of the pipeline uses it.
-/

namespace Cloner

/-- Character lists, the computational representation of Python strings. -/
abbrev Chars := List Char

/-! ### Small string helpers (Python semantics) -/

/-- Split at the first occurrence of `c`: `(before, after)`, separator
dropped; when `c` is absent, `(s, [])`.  Mirrors Python `s.split(c, 1)`
(with a missing separator giving an empty second part, which is how the
parser uses it). -/
def splitFirstL (c : Char) (s : Chars) : Chars × Chars :=
  (s.takeWhile (fun d => d ≠ c),
    match s.dropWhile (fun d => d ≠ c) with
    | [] => []
    | _ :: rest => rest)

/-- Python `s.split(c)` for a one-character separator. -/
def splitOnCharL (c : Char) : Chars → List Chars
  | [] => [[]]
  | d :: rest =>
    let r := splitOnCharL c rest
    if d = c then [] :: r
    else
      match r with
      | [] => [[d]]
      | h :: t => (d :: h) :: t

/-- `'/'.join(parts)`. -/
def joinWithSlash : List Chars → Chars
  | [] => []
  | [a] => a
  | a :: rest => a ++ '/' :: joinWithSlash rest

/-- Characters allowed in a URL scheme (CPython `scheme_chars`). -/
def schemeChar (c : Char) : Bool :=
  c.isAlpha || c.isDigit || c = '+' || c = '-' || c = '.'

/-- Python `s.lstrip("/")`. -/
def lstripSlashL (s : Chars) : Chars :=
  s.dropWhile (fun c => c = '/')

/-- Python `s.endswith("/")`. -/
def endsSlashL (s : Chars) : Bool :=
  s.getLast? = some '/'

/-! ### `urllib.parse` embedding -/

/-- Result of `urllib.parse.urlsplit` (we do not model `;`-params). -/
structure UrlParts where
  scheme : Chars
  netloc : Chars
  path : Chars
  query : Chars
  fragment : Chars
deriving DecidableEq, Repr

/-- CPython `urlsplit(url, dscheme)`: split off a scheme when the text
before the first `:` is a nonempty valid scheme name (else use the
default `dscheme`), then a `//netloc` ending at `/`, `?` or `#`, then
the fragment after the first `#`, then the query after the first `?`. -/
def urlparseWithL (dscheme : Chars) (url : Chars) : UrlParts :=
  let pre := url.takeWhile (fun c => c ≠ ':')
  let hasScheme := url.dropWhile (fun c => c ≠ ':') ≠ [] ∧ pre ≠ [] ∧
      (pre.headD 'a').isAlpha = true ∧ pre.all schemeChar = true
  let sch := if hasScheme then pre.map Char.toLower else dscheme
  let rest1 := if hasScheme then (url.dropWhile (fun c => c ≠ ':')).drop 1 else url
  let hasNetloc := ['/', '/'].isPrefixOf rest1
  let netloc :=
    if hasNetloc then
      (rest1.drop 2).takeWhile (fun c => c ≠ '/' ∧ c ≠ '?' ∧ c ≠ '#')
    else []
  let rest2 :=
    if hasNetloc then
      (rest1.drop 2).dropWhile (fun c => c ≠ '/' ∧ c ≠ '?' ∧ c ≠ '#')
    else rest1
  let rest3 := (splitFirstL '#' rest2).1
  let fragment := (splitFirstL '#' rest2).2
  let path := (splitFirstL '?' rest3).1
  let query := (splitFirstL '?' rest3).2
  ⟨sch, netloc, path, query, fragment⟩

/-- `urllib.parse.urlparse` with no default scheme. -/
def urlparseL (url : Chars) : UrlParts :=
  urlparseWithL [] url

/-- CPython `urlunsplit`. -/
def urlunparseL (p : UrlParts) : Chars :=
  let url := p.path
  let url :=
    if p.netloc ≠ [] ∨ ['/', '/'].isPrefixOf url then
      '/' :: '/' :: p.netloc ++
        (if url ≠ [] ∧ ¬('/' :: []).isPrefixOf url then '/' :: url else url)
    else url
  let url := if p.scheme ≠ [] then p.scheme ++ ':' :: url else url
  let url := if p.query ≠ [] then url ++ '?' :: p.query else url
  if p.fragment ≠ [] then url ++ '#' :: p.fragment else url

/-- Schemes treated as relative-capable (`uses_relative`); the pipeline
only ever joins against `http`/`https` bases. -/
def usesRelativeL (s : Chars) : Bool :=
  s = [] ∨ s = "http".toList ∨ s = "https".toList

/-- Python `filter(None, segments[1:-1])` applied behind a kept head:
drop empty strings except in the last position. -/
def keepLastFilter : List Chars → List Chars
  | [] => []
  | [a] => [a]
  | a :: rest => if a = [] then keepLastFilter rest else a :: keepLastFilter rest

/-- Keep the first segment, filter empty interior segments, keep the last. -/
def keepEndsFilter : List Chars → List Chars
  | [] => []
  | a :: rest => a :: keepLastFilter rest

/-- Dot-segment resolution as done inside CPython `urljoin` (`..` pops,
`.` is skipped, popping an empty stack is a no-op). -/
def resolveSegments (segs : List Chars) : List Chars :=
  segs.foldl (fun acc seg =>
    if seg = ['.', '.'] then acc.dropLast
    else if seg = ['.'] then acc
    else acc ++ [seg]) []

/-- CPython `urllib.parse.urljoin` (params not modelled). -/
def urljoinL (base url : Chars) : Chars :=
  if base = [] then url
  else if url = [] then base
  else
    let b := urlparseWithL [] base
    let u := urlparseWithL b.scheme url
    if u.scheme ≠ b.scheme ∨ ¬usesRelativeL u.scheme then url
    else if u.netloc ≠ [] then urlunparseL u
    else
      let u := { u with netloc := b.netloc }
      if u.path = [] then
        urlunparseL { u with path := b.path,
                             query := if u.query = [] then b.query else u.query }
      else
        let baseParts0 := splitOnCharL '/' b.path
        let baseParts :=
          if baseParts0.getLast? = some [] then baseParts0 else baseParts0.dropLast
        let segments :=
          if ('/' :: []).isPrefixOf u.path then splitOnCharL '/' u.path
          else keepEndsFilter (baseParts ++ splitOnCharL '/' u.path)
        let resolved := resolveSegments segments
        let resolved :=
          if segments.getLast? = some ['.'] ∨ segments.getLast? = some ['.', '.'] then
            resolved ++ [[]]
          else resolved
        let p := joinWithSlash resolved
        urlunparseL { u with path := if p = [] then ['/'] else p }

/-- `urljoin` on strings. -/
def urljoin (base url : String) : String :=
  String.mk (urljoinL base.toList url.toList)

/-! ### `ensure_scheme` and `safe_filename_from_url` (the Local Path Mapper) -/

/-- `ensure_scheme` from `copy.py`. -/
def ensureSchemeL (url : Chars) : Chars :=
  if ¬"http://".toList.isPrefixOf url ∧ ¬"https://".toList.isPrefixOf url then
    "http://".toList ++ url
  else url

/-- `ensure_scheme` on strings. -/
def ensure_scheme (url : String) : String :=
  String.mk (ensureSchemeL url.toList)

/-- The character class of `re.sub(r"[\\:*?\"<>|]", "_", ...)`. -/
def badFsChar (c : Char) : Bool :=
  c = '\\' || c = ':' || c = '*' || c = '?' || c = '"' || c = '<' || c = '>' || c = '|'

/-- Apply the filesystem-character substitution of `safe_filename_from_url`. -/
def subBadFs (s : Chars) : Chars :=
  s.map (fun c => if badFsChar c then '_' else c)

/-- `re.sub(r'[^0-9a-zA-Z]', '_', q)[:40]`. -/
def queryFingerprint (q : Chars) : Chars :=
  (q.map (fun c => if c.isAlphanum then c else '_')).take 40

/-- `os.path.join` restricted to the shapes used by the mapper (the
second component never starts with `/` after `lstrip`). -/
def pyPathJoin (a b : Chars) : Chars :=
  if ('/' :: []).isPrefixOf b then b
  else if a = [] then b
  else if endsSlashL a then a ++ b
  else a ++ '/' :: b

/-- The path-to-filename steps of `safe_filename_from_url` (lines
36–41): default to `/`, append `index.html` after a trailing slash,
strip leading slashes, fall back to `index.html` when empty. -/
def mapperFilename (path : Chars) : Chars :=
  let path0 := if path = [] then ['/'] else path
  let path1 := if endsSlashL path0 then path0 ++ "index.html".toList else path0
  let f := lstripSlashL path1
  if f = [] then "index.html".toList else f

/-- `safe_filename_from_url` from `copy.py`, step for step. -/
def safeFilenameL (url : Chars) : Chars :=
  let parsed := urlparseL url
  let filename := mapperFilename parsed.path
  let host := parsed.netloc.map (fun c => if c = ':' then '_' else c)
  let filename := pyPathJoin host filename
  let filename := subBadFs filename
  if parsed.query ≠ [] then filename ++ '_' :: queryFingerprint parsed.query
  else filename

/-- `safe_filename_from_url` on strings. -/
def safe_filename_from_url (url : String) : String :=
  String.mk (safeFilenameL url.toList)

/-- The claim-side path component: the URL's path, with `index.html`
appended when it is empty or ends with `/`, leading slashes dropped for
joining. -/
def claimFilename (path : Chars) : Chars :=
  lstripSlashL
    (if path = [] ∨ endsSlashL path then path ++ "index.html".toList else path)

/-- Local-path mapping as described by the words of claim C3 / spec §4.2
(the spec-side definition, to be compared with `safe_filename_from_url`):
join the host (`:` replaced) with the path component (with `index.html`
appended when the path is empty or ends with `/`), replace each of the
characters `\ : * ? " < > |` by `_`, and exactly when a query is present
append `_` followed by the query with every non-alphanumeric character
replaced by `_`, truncated to at most 40 characters. -/
def claimLocalPathL (url : Chars) : Chars :=
  let parsed := urlparseL url
  let hostPart := parsed.netloc.map (fun c => if c = ':' then '_' else c)
  let joined := (if hostPart = [] then [] else hostPart ++ ['/']) ++
    claimFilename parsed.path
  let joined := subBadFs joined
  if parsed.query = [] then joined
  else joined ++ '_' :: queryFingerprint parsed.query

/-- The spec-side mapper on strings. -/
def claimLocalPath (url : String) : String :=
  String.mk (claimLocalPathL url.toList)

/-! ### Regular-expression scanners

Each scanner walks the text one character at a time (structural
recursion); after a successful match the remaining characters of the
match are skipped through the `Nat` state, which makes the scan
non-overlapping exactly as `re.findall` / `re.sub` are. -/

/-- Worker for `findUrlCaps`: skip `k` characters, then look for a match
of `url\(([^)]+)\)` at the current position; a failed attempt advances
one character, a successful match emits its capture and skips to just
after the closing parenthesis. -/
def findUrlCapsGo : Nat → Chars → List Chars
  | _, [] => []
  | k + 1, _ :: cs => findUrlCapsGo k cs
  | 0, c :: cs =>
    if c = 'u' ∧ "rl(".toList.isPrefixOf cs then
      let cap := (cs.drop 3).takeWhile (fun d => d ≠ ')')
      match (cs.drop 3).dropWhile (fun d => d ≠ ')') with
      | ')' :: _ => if cap = [] then findUrlCapsGo 0 cs
                    else cap :: findUrlCapsGo (cap.length + 4) cs
      | _ => findUrlCapsGo 0 cs
    else findUrlCapsGo 0 cs

/-- `re.findall(r"url\(([^)]+)\)", text)`: non-overlapping captures,
left to right. -/
def findUrlCaps (s : Chars) : List Chars :=
  findUrlCapsGo 0 s

/-- Python `\s` for ASCII text. -/
def isSpaceChar (c : Char) : Bool :=
  c = ' ' || c = '\t' || c = '\n' || c = '\r' || c = Char.ofNat 11 || c = Char.ofNat 12

/-- The single-quote character. -/
def sq : Char := Char.ofNat 39

/-- Characters excluded from the `@import` capture group `[^"\')]+`. -/
def importExcluded (c : Char) : Bool :=
  c = '"' || c = sq || c = ')'

/-- A quote character, for the optional `["\']?` group. -/
def isQuoteChar (c : Char) : Bool :=
  c = '"' || c = sq

/-- Try the capture group `([^"\')]+)` at `r`: the capture and the rest. -/
def capAt (r : Chars) : Option (Chars × Chars) :=
  if r.takeWhile (fun d => ¬importExcluded d) = [] then none
  else some (r.takeWhile (fun d => ¬importExcluded d),
             r.dropWhile (fun d => ¬importExcluded d))

/-- The optional `["\']?` group followed by the capture, greedy first. -/
def quoteCap : Chars → Option (Chars × Chars)
  | [] => capAt []
  | d :: t =>
    if isQuoteChar d then (capAt t).orElse (fun _ => capAt (d :: t))
    else capAt (d :: t)

/-- Match `(?:url\()?["\']?([^"\')]+)` at `r1` with the backtracking
order of the regex engine (greedy optional groups first): the capture
and what follows the match. -/
def importMatch (r1 : Chars) : Option (Chars × Chars) :=
  if "url(".toList.isPrefixOf r1 then
    (quoteCap (r1.drop 4)).orElse (fun _ => quoteCap r1)
  else quoteCap r1

/-- Worker for `findImportCaps`, same skip-state pattern as
`findUrlCapsGo`: a successful match at the current position emits its
capture and skips to just after it. -/
def findImportCapsGo : Nat → Chars → List Chars
  | _, [] => []
  | k + 1, _ :: cs => findImportCapsGo k cs
  | 0, c :: cs =>
    if "@import".toList.isPrefixOf (c :: cs) then
      let r0 := cs.drop 6
      if r0.takeWhile isSpaceChar = [] then findImportCapsGo 0 cs
      else
        match importMatch (r0.dropWhile isSpaceChar) with
        | some (cap, rest) => cap :: findImportCapsGo (cs.length - rest.length) cs
        | none => findImportCapsGo 0 cs
    else findImportCapsGo 0 cs

/-- `re.findall(r'@import\s+(?:url\()?["\']?([^"\')]+)', css_text)`:
non-overlapping captures left to right; a failed attempt advances one
character, a successful match continues after its capture. -/
def findImportCaps (s : Chars) : List Chars :=
  findImportCapsGo 0 s

/-! ### Asset-extraction helpers from `find_asset_urls` and
`extract_css_urls_from_text` -/

/-- The alternatives of the anchor-filter regex
`\.(css|js|png|jpg|jpeg|gif|svg|woff2?|ttf|eot|mp4|webm|ico)`
(`woff2?` expanded into its two words). -/
def staticExts : List Chars :=
  ["css", "js", "png", "jpg", "jpeg", "gif", "svg", "woff", "woff2",
   "ttf", "eot", "mp4", "webm", "ico"].map String.toList

/-- Does some alternative match here (case-insensitively)? -/
def extMatchAt (l : Chars) : Bool :=
  staticExts.any (fun e => e.isPrefixOf (l.map Char.toLower))

/-- `re.search(r"\.(css|...|ico)", href, re.I) is not None`: a dot
followed by one of the alternatives, anywhere in the string. -/
def searchStaticExt : Chars → Bool
  | [] => false
  | c :: rest => (c = '.' && extMatchAt rest) || searchStaticExt rest

/-- The anchor (`<a href=...>`) contribution of `find_asset_urls`
(lines 115–119): a non-empty `href` matching the extension search adds
`urljoin(base_url, href)` to the asset set, anything else adds nothing. -/
def anchorHrefAssets (baseUrl href : Chars) : List Chars :=
  if href ≠ [] ∧ searchStaticExt href = true then [urljoinL baseUrl href] else []

/-- The predicate the C2 claim text asserts the Asset Extractor uses:
the final path segment of the resolved URL ends with a dot followed by
a static-resource extension (case-insensitively). -/
def pathHasStaticExt (url : Chars) : Bool :=
  let seg := ((splitOnCharL '/' (urlparseL url).path).getLast?.getD []).map Char.toLower
  staticExts.any (fun e => ('.' :: e).isSuffixOf seg)

/-- Python `m.strip(' \x27"')` as used on `url(...)` captures. -/
def stripQuoteSpace (s : Chars) : Chars :=
  let p := fun c => c = ' ' || c = sq || c = '"'
  ((s.dropWhile p).reverse.dropWhile p).reverse

/-- `extract_css_urls_from_text` from `copy.py`: the cleaned non-empty
`url(...)` captures and the `@import` targets, each resolved against
`base_url`, accumulated as a set (here: a deduplicated list). -/
def extract_css_urls_from_text (baseUrl cssText : Chars) : List Chars :=
  let urlRefs := ((findUrlCaps cssText).map stripQuoteSpace).filter (fun m => m ≠ [])
  (urlRefs.map (urljoinL baseUrl)
    ++ (findImportCaps cssText).map (urljoinL baseUrl)).dedup

/-! ### Rewriter value functions (`sse_generator`, lines 269–306) -/

/-- `rewrite_attr`: an empty (or missing) attribute value is left
unchanged, any other value `v` becomes
`safe_filename_from_url(urljoin(web_url, v))`. -/
def rewriteAttrVal (baseUrl v : Chars) : Chars :=
  if v = [] then v else safeFilenameL (urljoinL baseUrl v)

/-- Python `part.strip()` (default whitespace strip). -/
def stripWs (s : Chars) : Chars :=
  ((s.dropWhile isSpaceChar).reverse.dropWhile isSpaceChar).reverse

/-- `part.strip().split(" ")[0]` for one srcset candidate. -/
def srcsetFirstTok (part : Chars) : Chars :=
  (stripWs part).takeWhile (fun c => c ≠ ' ')

/-- `", ".join(parts)`. -/
def joinCommaSpace : List Chars → Chars
  | [] => []
  | [a] => a
  | a :: rest => a ++ ',' :: ' ' :: joinCommaSpace rest

/-- The srcset rewrite loop: every comma-separated candidate — also an
empty one — is replaced by the mapped absolute URL of its first token,
descriptors dropped. -/
def rewriteSrcsetVal (baseUrl ss : Chars) : Chars :=
  joinCommaSpace ((splitOnCharL ',' ss).map
    (fun part => safeFilenameL (urljoinL baseUrl (srcsetFirstTok part))))

/-- Worker for `rewriteStyleVal`: skip `k` characters (already covered
by an emitted replacement), else copy text until a `url\(([^)]+)\)`
match, which is replaced. -/
def rewriteStyleGo (baseUrl : Chars) : Nat → Chars → Chars
  | _, [] => []
  | k + 1, _ :: cs => rewriteStyleGo baseUrl k cs
  | 0, c :: cs =>
    if c = 'u' ∧ "rl(".toList.isPrefixOf cs then
      let cap := (cs.drop 3).takeWhile (fun d => d ≠ ')')
      match (cs.drop 3).dropWhile (fun d => d ≠ ')') with
      | ')' :: _ =>
        if cap = [] then c :: rewriteStyleGo baseUrl 0 cs
        else
          "url(".toList ++ sq ::
            (safeFilenameL (urljoinL baseUrl (stripQuoteSpace cap)) ++
              sq :: ')' :: rewriteStyleGo baseUrl (cap.length + 4) cs)
      | _ => c :: rewriteStyleGo baseUrl 0 cs
    else c :: rewriteStyleGo baseUrl 0 cs

/-- `re.sub(r"url\(([^)]+)\)", repl, style)` with
`repl = url('safe_filename_from_url(urljoin(web_url, orig))')`. -/
def rewriteStyleVal (baseUrl style : Chars) : Chars :=
  rewriteStyleGo baseUrl 0 style

example : (findUrlCaps "a url(x.png) b url() url('y.css')".toList).map List.asString =
    ["x.png", "'y.css'"] := by decide
example : (findImportCaps "@import \"fonts.css\"; @import url(a.css);".toList).map
    List.asString = ["fonts.css", "a.css"] := by decide
example : (extract_css_urls_from_text "http://ex.com/".toList
    "x: url(icon.svg); @import 'fonts.css';".toList).map List.asString =
    ["http://ex.com/icon.svg", "http://ex.com/fonts.css"] := by decide
example : searchStaticExt "page.html?f=a.css".toList = true := by decide
example : searchStaticExt "style.CSS".toList = true := by decide
example : searchStaticExt "about.html".toList = false := by decide
example : pathHasStaticExt "http://ex.com/page?f=a.css".toList = false := by decide
example : (rewriteSrcsetVal "http://ex.com/".toList "a.png 2x, b.png".toList).asString =
    "ex.com/a.png, ex.com/b.png" := by decide
example : (rewriteStyleVal "http://ex.com/".toList
    "background:url(/b.png);".toList).asString =
    "background:url('ex.com/b.png');" := by decide

/-! ### The SSE pipeline (`sse_generator`)

The generator is modelled as a function from a `RunCfg` — the outcome of
every external I/O action of one run — to the list of emitted events.
BeautifulSoup parsing is abstracted: the asset URLs found in the markup
(`find_asset_urls`) and the stylesheet links enter as data; the CSS
discovered assets are computed by the embedded
`extract_css_urls_from_text`, resolved against `webUrl` exactly as on
line 174 of the source.  Wall-clock quantities (the 0.5 s progress
throttle and the measured speed) are abstracted into `progressAt`. -/

/-- `CONCURRENT_DOWNLOADS` from `copy.py`. -/
def CONCURRENT_DOWNLOADS : Nat := 8

/-- Outcome of one asset download attempt (success carries the byte
size of the body written to disk). -/
inductive DlRes where
  | success (size : Nat)
  | failure (msg : Chars)
deriving DecidableEq, Repr

/-- One emitted server-sent event, payloads abstracted from their JSON
serialisation (`saved` is the workspace-relative local path). -/
inductive Ev where
  | status (s : Chars)
  | meta (totalItems : Nat)
  | asset (url saved : Chars) (size : Nat)
  | assetError (url : Chars) (msg : Chars)
  | progress (bytesTotal speed : Nat)
  | error (s : Chars)
  | done (zipName : Chars)
deriving DecidableEq, Repr

/-- The outcome of every external action of one `sse_generator` run. -/
structure RunCfg where
  /-- The (scheme-ensured) page URL. -/
  webUrl : Chars
  /-- Did the root page fetch succeed? -/
  rootFetchOk : Bool
  /-- Stylesheet link URLs found on the page, in document order. -/
  cssLinks : List Chars
  /-- Stylesheet text per URL when its GET succeeds with status 200. -/
  cssFetch : Chars → Option Chars
  /-- `find_asset_urls(web_url, html)`, as a list. -/
  htmlAssets : List Chars
  /-- Download outcome per asset URL. -/
  dl : Chars → DlRes
  /-- After batch `i`: `some speed` when at least 0.5 s elapsed. -/
  progressAt : Nat → Option Nat
  /-- Did the HTML rewrite stage succeed? -/
  rewriteOk : Bool
  /-- Did writing `info.json` succeed? -/
  manifestOk : Bool
  /-- Did creating the zip archive succeed? -/
  zipOk : Bool
  /-- The timestamped archive name. -/
  zipName : Chars

/-- Assets discovered inside successfully fetched stylesheets: note the
references are resolved against `cfg.webUrl` (the page URL), exactly as
`extract_css_urls_from_text(web_url, r.text)` does on line 174. -/
def cssAssetsOf (cfg : RunCfg) : List Chars :=
  cfg.cssLinks.flatMap (fun u =>
    match cfg.cssFetch u with
    | some t => extract_css_urls_from_text cfg.webUrl t
    | none => [])

/-- The final asset-URL set: markup assets, stylesheet-discovered assets
and the stylesheet links themselves, deduplicated (Python set), with the
page's own URL discarded. -/
def discoveredAssets (cfg : RunCfg) : List Chars :=
  ((cfg.htmlAssets ++ cssAssetsOf cfg ++ cfg.cssLinks).dedup).filter
    (fun u => u ≠ cfg.webUrl)

/-- The single event yielded by `download_and_save(url)`. -/
def dlEvent (cfg : RunCfg) (u : Chars) : Ev :=
  match cfg.dl u with
  | .success n => .asset u (safeFilenameL u) n
  | .failure m => .assetError u m

/-- Bytes a download contributes to `bytes_downloaded`. -/
def dlSize (cfg : RunCfg) (u : Chars) : Nat :=
  match cfg.dl u with
  | .success n => n
  | .failure _ => 0

/-- Chunking worker: `k` slots left in the current chunk `curr`. -/
def chunksGo {α : Type} (n : Nat) : List α → List α → Nat → List (List α)
  | curr, [], _ => if curr.isEmpty then [] else [curr.reverse]
  | curr, x :: xs, 0 => curr.reverse :: chunksGo n [x] xs (n - 1)
  | curr, x :: xs, k + 1 => chunksGo n (x :: curr) xs k

/-- Split into consecutive chunks of `n` (the batching
`for i in range(0, len(tasks), CONCURRENT_DOWNLOADS)`). -/
def chunksOf {α : Type} (n : Nat) (l : List α) : List (List α) :=
  match l with
  | [] => []
  | x :: xs => chunksGo n [x] xs (n - 1)

/-- The throttled progress event after batch `i`, carrying the
cumulative byte counter (empty when less than 0.5 s elapsed). -/
def progressEvsAt (cfg : RunCfg) (i acc2 : Nat) : List Ev :=
  match cfg.progressAt i with
  | some speed => [.progress acc2 speed]
  | none => []

/-- Events of `run_tasks_and_emit` over the batches: each batch yields
its per-download events in order, followed by the throttled progress
event. -/
def batchList (cfg : RunCfg) : List (List Chars) → Nat → Nat → List Ev
  | [], _, _ => []
  | batch :: more, acc, i =>
    batch.map (dlEvent cfg) ++
      progressEvsAt cfg i (acc + (batch.map (dlSize cfg)).sum) ++
      batchList cfg more (acc + (batch.map (dlSize cfg)).sum) (i + 1)

/-- All events of the download stage. -/
def downloadEvents (cfg : RunCfg) : List Ev :=
  batchList cfg (chunksOf CONCURRENT_DOWNLOADS (discoveredAssets cfg)) 0 0

/-- The full event stream of one `sse_generator` run. -/
def runEvents (cfg : RunCfg) : List Ev :=
  .status "fetching_html".toList ::
    (if cfg.rootFetchOk = false then [.error "failed_fetch_html".toList]
     else
      .status "fetched_html".toList ::
        (cfg.cssLinks.map (fun u => Ev.status ("fetching_css ".toList ++ u)) ++
          (.meta ((discoveredAssets cfg).length + 1) ::
            (downloadEvents cfg ++
              (.status "rewriting_html".toList ::
                ((if cfg.rewriteOk then [.status "html_rewritten".toList]
                  else [.error "rewrite_failed".toList]) ++
                  (.status "creating_info_json".toList ::
                    ((if cfg.manifestOk then [.status "info_json_created".toList]
                      else [.error "info_json_failed".toList]) ++
                      (.status "creating_zip".toList ::
                        (if cfg.zipOk then [.status "zip_created".toList, .done cfg.zipName]
                         else [.error "zip_failed".toList]))))))))))

/-- The asset URLs whose download succeeded, in discovery order. -/
def successUrls (cfg : RunCfg) : List Chars :=
  (discoveredAssets cfg).filter (fun u =>
    match cfg.dl u with
    | .success _ => true
    | .failure _ => false)

/-- The final value of `bytes_downloaded`. -/
def bytesDownloadedTotal (cfg : RunCfg) : Nat :=
  ((discoveredAssets cfg).map (dlSize cfg)).sum

/-- The `info.json` record (UTC timestamp abstracted away). -/
structure Manifest where
  clonedFrom : Chars
  totalFilesDownloaded : Nat
  downloadedBytes : Nat
  zipName : Chars
deriving DecidableEq, Repr

/-- The manifest written by the run, when one is written at all. -/
def manifestOf (cfg : RunCfg) : Option Manifest :=
  if cfg.rootFetchOk = true ∧ cfg.manifestOk = true then
    some ⟨cfg.webUrl, (successUrls cfg).length + 1, bytesDownloadedTotal cfg, cfg.zipName⟩
  else none

/-- Workspace-relative paths of the files present under the Workspace
at packaging time (root HTML, each successfully downloaded asset at its
mapped path, and `info.json` when the manifest write succeeded). -/
def workspaceFiles (cfg : RunCfg) : List Chars :=
  "index.html".toList ::
    ((successUrls cfg).map safeFilenameL ++
      (if cfg.manifestOk then ["info.json".toList] else []))

/-- The archive produced by the run: its entry list, when the run gets
that far. -/
def archiveOf (cfg : RunCfg) : Option (List Chars) :=
  if cfg.rootFetchOk = true ∧ cfg.zipOk = true then some (workspaceFiles cfg)
  else none

/-! ### The zip walk (`sse_generator`, lines 332–337)

`os.walk(root)` over a directory tree, modelled in first-child /
next-sibling form so the walk is structurally recursive. -/

/-- A directory's contents: files and subdirectories, as a sibling list. -/
inductive FTree where
  | nil : FTree
  | file (name : Chars) (rest : FTree)
  | dir (name : Chars) (contents : FTree) (rest : FTree)
deriving DecidableEq, Repr

/-- `os.path.join` for directory traversal (base empty ⇒ the name). -/
def joinPath (a b : Chars) : Chars :=
  if a = [] then b else a ++ '/' :: b

/-- All file paths below `base`, as `os.walk` + `os.path.join` produce
them. -/
def walkFiles (base : Chars) : FTree → List Chars
  | .nil => []
  | .file n rest => joinPath base n :: walkFiles base rest
  | .dir n contents rest => walkFiles (joinPath base n) contents ++ walkFiles base rest

/-- `os.path.relpath(file_path, root)` for files lying under `root`. -/
def relpath (full root : Chars) : Chars :=
  if (root ++ ['/']).isPrefixOf full then full.drop (root.length + 1) else full

/-- The archive entry names written by the zip loop: every walked file,
named by its path relative to the workspace root. -/
def zipEntries (root : Chars) (t : FTree) : List Chars :=
  (walkFiles root t).map (fun f => relpath f root)

/-- The workspace-relative paths of all files in the tree (the
claim-side description of the archive contents). -/
def relFiles : FTree → List Chars
  | .nil => []
  | .file n rest => n :: relFiles rest
  | .dir n contents rest => (relFiles contents).map (joinPath n) ++ relFiles rest

/-- Well-formedness: subdirectory names are nonempty. -/
def FTree.wfT : FTree → Prop
  | .nil => True
  | .file _ rest => rest.wfT
  | .dir n contents rest => n ≠ [] ∧ contents.wfT ∧ rest.wfT

/-! ### The download semaphore (`asyncio.Semaphore(CONCURRENT_DOWNLOADS)`)

`download_and_save` performs its fetch inside `async with sem`; the
admission discipline is the transition system below: a waiting download
may start only while fewer than `CONCURRENT_DOWNLOADS` fetches are in
flight, and an in-flight fetch may complete. -/

/-- Counts of downloads waiting for the semaphore, holding it (in-flight
fetches), and completed. -/
structure SemState where
  waiting : Nat
  inflight : Nat
  finished : Nat
deriving DecidableEq, Repr

/-- One scheduler step of the download stage. -/
inductive SemStep : SemState → SemState → Prop where
  | start {s : SemState} (hw : 0 < s.waiting)
      (hf : s.inflight < CONCURRENT_DOWNLOADS) :
      SemStep s ⟨s.waiting - 1, s.inflight + 1, s.finished⟩
  | finish {s : SemState} (hf : 0 < s.inflight) :
      SemStep s ⟨s.waiting, s.inflight - 1, s.finished + 1⟩

/-- Reachability from an initial state. -/
inductive SemReach (init : SemState) : SemState → Prop where
  | refl : SemReach init init
  | step {s t : SemState} (h : SemReach init s) (hs : SemStep s t) :
      SemReach init t

/-- The download stage starts with `n` queued downloads, none running. -/
def semInit (n : Nat) : SemState := ⟨n, 0, 0⟩

/-! ### Event predicates and structural lemmas about the pipeline -/

/-- Is this a per-download outcome event (`asset` / `asset_error`)? -/
def isAssetEv : Ev → Bool
  | .asset _ _ _ => true
  | .assetError _ _ => true
  | _ => false

/-- Is this a `progress` event? -/
def isProgressEv : Ev → Bool
  | .progress _ _ => true
  | _ => false

/-- Is this the `meta` event? -/
def isMetaEv : Ev → Bool
  | .meta _ => true
  | _ => false

/-- Is this the terminal `done` event? -/
def isDoneEv : Ev → Bool
  | .done _ => true
  | _ => false

/-- Is this a manifest- or archive-stage event (status markers, their
failure reports, or `done`)? -/
def isManifestArchiveEv : Ev → Bool
  | .status s => s = "creating_info_json".toList || s = "info_json_created".toList ||
      s = "creating_zip".toList || s = "zip_created".toList
  | .error m => m = "info_json_failed".toList || m = "zip_failed".toList
  | .done _ => true
  | _ => false

/-- Events before `meta` when the root fetch succeeded. -/
def preMetaEvents (cfg : RunCfg) : List Ev :=
  Ev.status "fetching_html".toList :: Ev.status "fetched_html".toList ::
    cfg.cssLinks.map (fun u => Ev.status ("fetching_css ".toList ++ u))

/-- Events after the `rewriting_html` status marker. -/
def postRewriteEvents (cfg : RunCfg) : List Ev :=
  (if cfg.rewriteOk then [Ev.status "html_rewritten".toList]
   else [Ev.error "rewrite_failed".toList]) ++
    Ev.status "creating_info_json".toList ::
      ((if cfg.manifestOk then [Ev.status "info_json_created".toList]
        else [Ev.error "info_json_failed".toList]) ++
        Ev.status "creating_zip".toList ::
          (if cfg.zipOk then [Ev.status "zip_created".toList, Ev.done cfg.zipName]
           else [Ev.error "zip_failed".toList]))

theorem runEvents_ok (cfg : RunCfg) (h : cfg.rootFetchOk = true) :
    runEvents cfg =
      preMetaEvents cfg ++
        Ev.meta ((discoveredAssets cfg).length + 1) ::
          (downloadEvents cfg ++
            Ev.status "rewriting_html".toList :: postRewriteEvents cfg) := by
  simp [runEvents, preMetaEvents, postRewriteEvents, h]

theorem runEvents_rootFail (cfg : RunCfg) (h : cfg.rootFetchOk = false) :
    runEvents cfg = [Ev.status "fetching_html".toList,
      Ev.error "failed_fetch_html".toList] := by
  simp [runEvents, h]

theorem chunksGo_flatten {α : Type} (n : Nat) (rest : List α) :
    ∀ (curr : List α) (k : Nat),
      (chunksGo n curr rest k).flatten = curr.reverse ++ rest := by
  induction rest with
  | nil =>
    intro curr k
    by_cases h : curr.isEmpty
    · simp [chunksGo, h]
      simpa [List.isEmpty_iff] using h
    · simp [chunksGo, h]
  | cons x xs ih =>
    intro curr k
    cases k with
    | zero => simp [chunksGo, ih]
    | succ k => simp [chunksGo, ih]

theorem chunksOf_flatten {α : Type} (n : Nat) (l : List α) :
    (chunksOf n l).flatten = l := by
  cases l with
  | nil => simp [chunksOf]
  | cons x xs => simp [chunksOf, chunksGo_flatten]

theorem dlEvent_isAsset (cfg : RunCfg) (u : Chars) :
    isAssetEv (dlEvent cfg u) = true := by
  unfold dlEvent
  cases cfg.dl u <;> simp [isAssetEv]

theorem progressEvsAt_filter_asset (cfg : RunCfg) (i a : Nat) :
    (progressEvsAt cfg i a).filter isAssetEv = [] := by
  unfold progressEvsAt
  cases cfg.progressAt i <;> simp [isAssetEv]

theorem batchList_filter_asset (cfg : RunCfg) (bs : List (List Chars)) :
    ∀ acc i, (batchList cfg bs acc i).filter isAssetEv =
      bs.flatten.map (dlEvent cfg) := by
  induction bs with
  | nil => intro acc i; simp [batchList]
  | cons batch more ih =>
    intro acc i
    simp only [batchList, List.flatten_cons, List.map_append, List.filter_append]
    rw [ih, progressEvsAt_filter_asset]
    have h1 : (batch.map (dlEvent cfg)).filter isAssetEv = batch.map (dlEvent cfg) :=
      List.filter_eq_self.mpr (by
        intro e he
        rcases List.mem_map.mp he with ⟨u, _, rfl⟩
        exact dlEvent_isAsset cfg u)
    rw [h1]
    simp

theorem mem_progressEvsAt {cfg : RunCfg} {i a : Nat} {e : Ev}
    (h : e ∈ progressEvsAt cfg i a) : isProgressEv e = true := by
  unfold progressEvsAt at h
  cases hp : cfg.progressAt i with
  | none => rw [hp] at h; simp at h
  | some s =>
    rw [hp] at h
    simp at h
    rw [h]
    rfl

theorem mem_batchList {cfg : RunCfg} {bs : List (List Chars)} :
    ∀ {acc i : Nat} {e : Ev}, e ∈ batchList cfg bs acc i →
      isAssetEv e = true ∨ isProgressEv e = true := by
  induction bs with
  | nil => intro acc i e h; simp [batchList] at h
  | cons batch more ih =>
    intro acc i e h
    simp only [batchList, List.mem_append] at h
    rcases h with (h | h) | h
    · rcases List.mem_map.mp h with ⟨u, _, rfl⟩
      exact Or.inl (dlEvent_isAsset cfg u)
    · exact Or.inr (mem_progressEvsAt h)
    · exact ih h

theorem mem_preMeta {cfg : RunCfg} {e : Ev} (h : e ∈ preMetaEvents cfg) :
    ∃ s : Chars, e = .status s ∧ s.head? = some 'f' := by
  simp only [preMetaEvents, List.mem_cons, List.mem_map] at h
  rcases h with rfl | rfl | ⟨u, _, rfl⟩
  · exact ⟨_, rfl, rfl⟩
  · exact ⟨_, rfl, rfl⟩
  · exact ⟨_, rfl, rfl⟩

theorem statusF_props {s : Chars} (hs : s.head? = some 'f') :
    isAssetEv (.status s) = false ∧ isMetaEv (.status s) = false ∧
    isProgressEv (.status s) = false ∧ isDoneEv (.status s) = false ∧
    isManifestArchiveEv (.status s) = false ∧
    Ev.status s ≠ Ev.status "rewriting_html".toList := by
  have hne : ∀ t : Chars, t.head? ≠ some 'f' → s ≠ t := by
    intro t ht he
    rw [he] at hs
    exact ht hs
  refine ⟨rfl, rfl, rfl, rfl, ?_, ?_⟩
  · simp only [isManifestArchiveEv, Bool.or_eq_false_iff, decide_eq_false_iff_not]
    exact ⟨⟨⟨hne _ (by decide), hne _ (by decide)⟩, hne _ (by decide)⟩,
      hne _ (by decide)⟩
  · intro he
    have h2 : s = "rewriting_html".toList := by injection he
    exact hne _ (by decide) h2

theorem mem_postRewrite {cfg : RunCfg} {e : Ev} (h : e ∈ postRewriteEvents cfg) :
    (∃ s, e = Ev.status s) ∨ (∃ m, e = Ev.error m) ∨ e = Ev.done cfg.zipName := by
  unfold postRewriteEvents at h
  by_cases hr : cfg.rewriteOk <;> by_cases hm : cfg.manifestOk <;>
    by_cases hz : cfg.zipOk <;>
    simp [hr, hm, hz] at h <;>
    (rcases h with rfl | rfl | rfl | rfl | rfl | rfl <;> simp)

theorem postRewrite_not_assetish {cfg : RunCfg} {e : Ev}
    (h : e ∈ postRewriteEvents cfg) :
    isAssetEv e = false ∧ isMetaEv e = false := by
  rcases mem_postRewrite h with ⟨s, rfl⟩ | ⟨m, rfl⟩ | rfl <;> exact ⟨rfl, rfl⟩

theorem preMeta_filter {cfg : RunCfg} {p : Ev → Bool}
    (hp : ∀ s : Chars, s.head? = some 'f' → p (.status s) = false) :
    (preMetaEvents cfg).filter p = [] := by
  refine List.filter_eq_nil_iff.mpr ?_
  intro e he
  rcases mem_preMeta he with ⟨s, rfl, hs⟩
  simp [hp s hs]

theorem batchList_filter_none {cfg : RunCfg} {bs : List (List Chars)}
    {acc i : Nat} {p : Ev → Bool}
    (hp : ∀ e, isAssetEv e = true ∨ isProgressEv e = true → p e = false) :
    (batchList cfg bs acc i).filter p = [] := by
  refine List.filter_eq_nil_iff.mpr ?_
  intro e he
  simp [hp e (mem_batchList he)]

theorem postRewrite_filter_meta (cfg : RunCfg) :
    (postRewriteEvents cfg).filter isMetaEv = [] := by
  refine List.filter_eq_nil_iff.mpr ?_
  intro e he
  simp [(postRewrite_not_assetish he).2]

theorem postRewrite_filter_asset (cfg : RunCfg) :
    (postRewriteEvents cfg).filter isAssetEv = [] := by
  refine List.filter_eq_nil_iff.mpr ?_
  intro e he
  simp [(postRewrite_not_assetish he).1]

theorem postRewrite_filter_done (cfg : RunCfg) :
    (postRewriteEvents cfg).filter isDoneEv =
      if cfg.zipOk then [Ev.done cfg.zipName] else [] := by
  unfold postRewriteEvents
  by_cases hr : cfg.rewriteOk <;> by_cases hm : cfg.manifestOk <;>
    by_cases hz : cfg.zipOk <;>
    simp [hr, hm, hz, isDoneEv, List.filter]

theorem postRewrite_ne_nil (cfg : RunCfg) : postRewriteEvents cfg ≠ [] := by
  unfold postRewriteEvents
  by_cases hr : cfg.rewriteOk <;> simp [hr]

theorem postRewrite_getLast (cfg : RunCfg) :
    (postRewriteEvents cfg).getLast? =
      some (if cfg.zipOk then Ev.done cfg.zipName
            else Ev.error "zip_failed".toList) := by
  unfold postRewriteEvents
  by_cases hr : cfg.rewriteOk <;> by_cases hm : cfg.manifestOk <;>
    by_cases hz : cfg.zipOk <;>
    simp [hr, hm, hz]

/-- The byte size carried by an `asset` event. -/
def evSize : Ev → Option Nat
  | .asset _ _ n => some n
  | _ => none

theorem batch_filterMap_size (cfg : RunCfg) (batch : List Chars) :
    ((batch.map (dlEvent cfg)).filterMap evSize).sum =
      (batch.map (dlSize cfg)).sum := by
  induction batch with
  | nil => simp
  | cons u us ih =>
    cases hd : cfg.dl u with
    | success n =>
      simp only [List.map_cons, List.filterMap_cons, dlEvent, dlSize, hd, evSize,
        List.sum_cons]
      rw [ih]
    | failure m =>
      simp only [List.map_cons, List.filterMap_cons, dlEvent, dlSize, hd, evSize,
        List.sum_cons]
      rw [ih]
      simp

theorem progressEvsAt_filterMap_size (cfg : RunCfg) (i a : Nat) :
    (progressEvsAt cfg i a).filterMap evSize = [] := by
  unfold progressEvsAt
  cases cfg.progressAt i <;> simp [evSize]

theorem batchList_filterMap_size (cfg : RunCfg) (bs : List (List Chars)) :
    ∀ acc i, ((batchList cfg bs acc i).filterMap evSize).sum =
      (bs.flatten.map (dlSize cfg)).sum := by
  induction bs with
  | nil => intro acc i; simp [batchList]
  | cons batch more ih =>
    intro acc i
    simp only [batchList, List.filterMap_append, List.sum_append,
      List.flatten_cons, List.map_append]
    rw [batch_filterMap_size, progressEvsAt_filterMap_size, ih]
    simp

theorem postRewrite_filterMap_size (cfg : RunCfg) :
    (postRewriteEvents cfg).filterMap evSize = [] := by
  refine List.filterMap_eq_nil_iff.mpr ?_
  intro e he
  rcases mem_postRewrite he with ⟨s, rfl⟩ | ⟨m, rfl⟩ | rfl <;> rfl

theorem assetish_not_meta {e : Ev}
    (h : isAssetEv e = true ∨ isProgressEv e = true) : isMetaEv e = false := by
  cases e <;> simp_all [isAssetEv, isProgressEv, isMetaEv]

theorem assetish_not_done {e : Ev}
    (h : isAssetEv e = true ∨ isProgressEv e = true) : isDoneEv e = false := by
  cases e <;> simp_all [isAssetEv, isProgressEv, isDoneEv]

theorem assetish_not_ma {e : Ev}
    (h : isAssetEv e = true ∨ isProgressEv e = true) :
    isManifestArchiveEv e = false := by
  cases e <;> simp_all [isAssetEv, isProgressEv, isManifestArchiveEv]

theorem mem_downloadEvents {cfg : RunCfg} {e : Ev}
    (h : e ∈ downloadEvents cfg) : isAssetEv e = true ∨ isProgressEv e = true := by
  unfold downloadEvents at h
  exact mem_batchList h

/-- A small concrete run used to witness the pipeline theorems: page
`http://ex.com/` with one image, one stylesheet on a CDN whose text
references `icon.svg`, and one failing download. -/
def demoCfg : RunCfg where
  webUrl := "http://ex.com/".toList
  rootFetchOk := true
  cssLinks := ["http://cdn.example/css/style.css".toList]
  cssFetch := fun u =>
    if u = "http://cdn.example/css/style.css".toList then
      some "body color: red; background: url(icon.svg);".toList
    else none
  htmlAssets := ["http://ex.com/a.png".toList]
  dl := fun u =>
    if u = "http://ex.com/a.png".toList then .success 3
    else if u = "http://cdn.example/css/style.css".toList then .success 5
    else .failure "timeout".toList
  progressAt := fun i => if i = 0 then some 7 else none
  rewriteOk := true
  manifestOk := true
  zipOk := true
  zipName := "stark_20250101000000.zip".toList

example : discoveredAssets demoCfg =
    ["http://ex.com/a.png".toList, "http://ex.com/icon.svg".toList,
     "http://cdn.example/css/style.css".toList] := by decide

example : urljoin "http://ex.com/" "page.html" = "http://ex.com/page.html" := by decide
example : urljoin "http://ex.com/" "http://ex.com/page?f=a.css" =
    "http://ex.com/page?f=a.css" := by decide
example : urljoin "http://cdn.example/css/style.css" "icon.svg" =
    "http://cdn.example/css/icon.svg" := by decide
example : urljoin "http://ex.com/a/b.html" "../c.png" = "http://ex.com/c.png" := by decide
example : urljoin "http://ex.com/a" "" = "http://ex.com/a" := by decide
example : safe_filename_from_url "http://ex.com/" = "ex.com/index.html" := by decide
example : safe_filename_from_url "http://ex.com/a.png" = "ex.com/a.png" := by decide
example : safe_filename_from_url "http://ex.com:8080/x/?v=1&k=2" =
    "ex.com_8080/x/index.html_v_1_k_2" := by decide
example : claimLocalPath "http://ex.com:8080/x/?v=1&k=2" =
    "ex.com_8080/x/index.html_v_1_k_2" := by decide

/-! ## Claim theorems -/

/-- C1: in every run whose root fetch succeeds and which discovers `N`
distinct asset URLs, exactly one `meta` event is emitted and it carries
`total_items = N + 1`; the `asset`/`asset_error` events of the run are
exactly one per discovered URL, an `asset` event (with the mapped local
path and the byte size) when the download succeeded and an
`asset_error` event otherwise — no discovered asset is dropped. -/
theorem c1_meta_and_per_asset_events (cfg : RunCfg) (h : cfg.rootFetchOk = true) :
    (runEvents cfg).filter isMetaEv =
      [Ev.meta ((discoveredAssets cfg).length + 1)] ∧
    (runEvents cfg).filter isAssetEv =
      (discoveredAssets cfg).map (dlEvent cfg) ∧
    (discoveredAssets cfg).Nodup ∧
    ∀ u ∈ discoveredAssets cfg,
      (∃ n, cfg.dl u = .success n ∧
        dlEvent cfg u = .asset u (safeFilenameL u) n) ∨
      ∃ m, cfg.dl u = .failure m ∧ dlEvent cfg u = .assetError u m := by
  refine ⟨?_, ?_, ?_, ?_⟩
  · have hpre : (preMetaEvents cfg).filter isMetaEv = [] :=
      preMeta_filter (fun s hs => (statusF_props hs).2.1)
    have hdl : (downloadEvents cfg).filter isMetaEv = [] := by
      unfold downloadEvents
      exact batchList_filter_none (fun e he => assetish_not_meta he)
    have hpost := postRewrite_filter_meta cfg
    rw [runEvents_ok cfg h]
    simp [List.filter_append, List.filter_cons, hpre, hdl, hpost, isMetaEv]
  · have hpre : (preMetaEvents cfg).filter isAssetEv = [] :=
      preMeta_filter (fun s hs => (statusF_props hs).1)
    have hdl : (downloadEvents cfg).filter isAssetEv =
        (discoveredAssets cfg).map (dlEvent cfg) := by
      unfold downloadEvents
      rw [batchList_filter_asset, chunksOf_flatten]
    have hpost := postRewrite_filter_asset cfg
    rw [runEvents_ok cfg h]
    simp [List.filter_append, List.filter_cons, hpre, hdl, hpost,
      isAssetEv, isMetaEv]
  · exact List.Nodup.filter _ (List.nodup_dedup _)
  · intro u hu
    cases hd : cfg.dl u with
    | success n => exact Or.inl ⟨n, rfl, by simp [dlEvent, hd]⟩
    | failure m => exact Or.inr ⟨m, rfl, by simp [dlEvent, hd]⟩

/-- Witness for C1: the demo run. -/
theorem c1_witness :
    (runEvents demoCfg).filter isMetaEv =
      [Ev.meta ((discoveredAssets demoCfg).length + 1)] ∧
    (runEvents demoCfg).filter isAssetEv =
      (discoveredAssets demoCfg).map (dlEvent demoCfg) ∧
    (discoveredAssets demoCfg).Nodup ∧
    ∀ u ∈ discoveredAssets demoCfg,
      (∃ n, demoCfg.dl u = .success n ∧
        dlEvent demoCfg u = .asset u (safeFilenameL u) n) ∨
      ∃ m, demoCfg.dl u = .failure m ∧ dlEvent demoCfg u = .assetError u m :=
  c1_meta_and_per_asset_events demoCfg rfl

/-- C4: whenever a manifest is written, its `downloaded_bytes` field
equals the sum of the `size` fields of the run's `asset` events; failed
downloads contribute nothing. -/
theorem c4_manifest_byte_sum (cfg : RunCfg) (info : Manifest)
    (h : manifestOf cfg = some info) :
    info.downloadedBytes = ((runEvents cfg).filterMap evSize).sum := by
  unfold manifestOf at h
  split at h
  case isFalse => exact absurd h (by simp)
  case isTrue hc =>
    rw [Option.some_inj] at h
    have hpre : (preMetaEvents cfg).filterMap evSize = [] := by
      refine List.filterMap_eq_nil_iff.mpr ?_
      intro e he
      rcases mem_preMeta he with ⟨s, rfl, _⟩
      rfl
    have hdl : ((downloadEvents cfg).filterMap evSize).sum =
        bytesDownloadedTotal cfg := by
      unfold downloadEvents bytesDownloadedTotal
      rw [batchList_filterMap_size, chunksOf_flatten]
    have hpost := postRewrite_filterMap_size cfg
    rw [runEvents_ok cfg hc.1]
    simp only [List.filterMap_append, List.filterMap_cons, hpre, hpost, evSize,
      List.sum_append, List.nil_append, List.append_nil]
    rw [hdl]
    rw [← h]

/-- Witness for C4: the demo run (total 3 + 5 bytes, the failed
`icon.svg` download contributing nothing). -/
theorem c4_witness :
    manifestOf demoCfg = some ⟨demoCfg.webUrl, 3, 8, demoCfg.zipName⟩ ∧
    (8 : Nat) = ((runEvents demoCfg).filterMap evSize).sum :=
  ⟨by decide, c4_manifest_byte_sum demoCfg ⟨demoCfg.webUrl, 3, 8, demoCfg.zipName⟩
    (by decide)⟩

/-- C5: the stream is terminal-exclusive.  A failed root fetch ends the
run at a single `error` event with no `done` and no archive; a failed
archive creation ends it at an `error` with no `done` and no archive;
in every other run — whatever the per-asset, stylesheet, rewrite or
manifest outcomes — the stream ends with exactly one `done` event (as
its last event, carrying the archive name) and an archive exists. -/
theorem c5_terminal_exclusive (cfg : RunCfg) :
    (cfg.rootFetchOk = false →
      runEvents cfg = [Ev.status "fetching_html".toList,
        Ev.error "failed_fetch_html".toList] ∧
      (runEvents cfg).filter isDoneEv = [] ∧ archiveOf cfg = none) ∧
    (cfg.rootFetchOk = true → cfg.zipOk = false →
      (runEvents cfg).filter isDoneEv = [] ∧
      (runEvents cfg).getLast? = some (Ev.error "zip_failed".toList) ∧
      archiveOf cfg = none) ∧
    (cfg.rootFetchOk = true → cfg.zipOk = true →
      (runEvents cfg).filter isDoneEv = [Ev.done cfg.zipName] ∧
      (runEvents cfg).getLast? = some (Ev.done cfg.zipName) ∧
      archiveOf cfg = some (workspaceFiles cfg)) := by
  have hfil : ∀ hr : cfg.rootFetchOk = true,
      (runEvents cfg).filter isDoneEv =
        if cfg.zipOk then [Ev.done cfg.zipName] else [] := by
    intro hr
    have hpre : (preMetaEvents cfg).filter isDoneEv = [] :=
      preMeta_filter (fun s hs => (statusF_props hs).2.2.2.1)
    have hdl : (downloadEvents cfg).filter isDoneEv = [] := by
      unfold downloadEvents
      exact batchList_filter_none (fun e he => assetish_not_done he)
    have hpost := postRewrite_filter_done cfg
    rw [runEvents_ok cfg hr]
    simp [List.filter_append, List.filter_cons, hpre, hdl, hpost,
      isDoneEv, isMetaEv]
  have hlast : ∀ hr : cfg.rootFetchOk = true,
      (runEvents cfg).getLast? =
        some (if cfg.zipOk then Ev.done cfg.zipName
              else Ev.error "zip_failed".toList) := by
    intro hr
    rcases List.getLast?_eq_some_iff.mp (postRewrite_getLast cfg) with ⟨X, hX⟩
    rw [runEvents_ok cfg hr, hX]
    rw [show preMetaEvents cfg ++
          Ev.meta ((discoveredAssets cfg).length + 1) ::
            (downloadEvents cfg ++ Ev.status "rewriting_html".toList ::
              (X ++ [if cfg.zipOk then Ev.done cfg.zipName
                     else Ev.error "zip_failed".toList])) =
        (preMetaEvents cfg ++
          Ev.meta ((discoveredAssets cfg).length + 1) ::
            (downloadEvents cfg ++ Ev.status "rewriting_html".toList :: X)) ++
          [if cfg.zipOk then Ev.done cfg.zipName
           else Ev.error "zip_failed".toList] from by simp]
    exact List.getLast?_concat _
  refine ⟨?_, ?_, ?_⟩
  · intro hf
    refine ⟨runEvents_rootFail cfg hf, ?_, ?_⟩
    · rw [runEvents_rootFail cfg hf]
      rfl
    · unfold archiveOf
      simp [hf]
  · intro hr hz
    refine ⟨?_, ?_, ?_⟩
    · rw [hfil hr, hz]
      rfl
    · rw [hlast hr, hz]
      rfl
    · unfold archiveOf
      simp [hz]
  · intro hr hz
    refine ⟨?_, ?_, ?_⟩
    · rw [hfil hr, hz]
      rfl
    · rw [hlast hr, hz]
      rfl
    · unfold archiveOf
      simp [hr, hz]

/-- Witness for C5: the demo run ends with its single `done` event and
produces an archive. -/
theorem c5_witness :
    (runEvents demoCfg).filter isDoneEv = [Ev.done demoCfg.zipName] ∧
    (runEvents demoCfg).getLast? = some (Ev.done demoCfg.zipName) ∧
    archiveOf demoCfg = some (workspaceFiles demoCfg) :=
  (c5_terminal_exclusive demoCfg).2.2 rfl rfl

/-- C6: in one run's event sequence the single `meta` event precedes
every `asset`/`asset_error` event, all of which precede the
`status: rewriting_html` event, which precedes every manifest- and
archive-related event (and hence `done`): the stream decomposes as
`A ++ meta :: (B ++ rewriting_html :: C)` with no asset/meta/
manifest/archive event in `A`, only download-stage events (asset,
asset_error, progress) and no manifest/archive event in `B`, and no
asset or meta event in `C`. -/
theorem c6_stage_ordering (cfg : RunCfg) (h : cfg.rootFetchOk = true) :
    ∃ A B C : List Ev,
      runEvents cfg =
        A ++ Ev.meta ((discoveredAssets cfg).length + 1) ::
          (B ++ Ev.status "rewriting_html".toList :: C) ∧
      (∀ e ∈ A, isAssetEv e = false ∧ isMetaEv e = false ∧
        e ≠ Ev.status "rewriting_html".toList ∧ isManifestArchiveEv e = false) ∧
      (∀ e ∈ B, isAssetEv e = true ∨ isProgressEv e = true) ∧
      (∀ e ∈ B, isMetaEv e = false ∧ isManifestArchiveEv e = false) ∧
      (∀ e ∈ C, isAssetEv e = false ∧ isMetaEv e = false) := by
  refine ⟨preMetaEvents cfg, downloadEvents cfg, postRewriteEvents cfg,
    runEvents_ok cfg h, ?_, ?_, ?_, ?_⟩
  · intro e he
    rcases mem_preMeta he with ⟨s, rfl, hs⟩
    have hp := statusF_props hs
    exact ⟨hp.1, hp.2.1, hp.2.2.2.2.2, hp.2.2.2.2.1⟩
  · intro e he
    exact mem_downloadEvents he
  · intro e he
    have ha := mem_downloadEvents he
    exact ⟨assetish_not_meta ha, assetish_not_ma ha⟩
  · intro e he
    exact postRewrite_not_assetish he

/-- Witness for C6: the demo run. -/
theorem c6_witness :
    ∃ A B C : List Ev,
      runEvents demoCfg =
        A ++ Ev.meta ((discoveredAssets demoCfg).length + 1) ::
          (B ++ Ev.status "rewriting_html".toList :: C) ∧
      (∀ e ∈ A, isAssetEv e = false ∧ isMetaEv e = false ∧
        e ≠ Ev.status "rewriting_html".toList ∧ isManifestArchiveEv e = false) ∧
      (∀ e ∈ B, isAssetEv e = true ∨ isProgressEv e = true) ∧
      (∀ e ∈ B, isMetaEv e = false ∧ isManifestArchiveEv e = false) ∧
      (∀ e ∈ C, isAssetEv e = false ∧ isMetaEv e = false) :=
  c6_stage_ordering demoCfg rfl

/-- C9: under the semaphore admission discipline of the download stage,
every reachable state has at most `CONCURRENT_DOWNLOADS` (8) fetches in
flight, and from a state with 8 fetches in flight the only possible step
is the completion of one of them — a further download cannot start until
an in-flight fetch completes. -/
theorem c9_concurrency_cap :
    (∀ (n : Nat) (s : SemState), SemReach (semInit n) s →
      s.inflight ≤ CONCURRENT_DOWNLOADS) ∧
    (∀ s t : SemState, s.inflight = CONCURRENT_DOWNLOADS → SemStep s t →
      t.inflight = CONCURRENT_DOWNLOADS - 1) := by
  constructor
  · intro n s hr
    induction hr with
    | refl => simp [semInit]
    | step h hs ih =>
      cases hs with
      | start hw hf => simpa using hf
      | finish hf => simp; omega
  · intro s t hfull hs
    cases hs with
    | start hw hf =>
      rw [hfull] at hf
      exact absurd hf (by simp)
    | finish hf => simp [hfull]

/-- Witness for C9: the initial state of a 5-download run is within the
cap, and from a saturated state a completion brings the count to 7. -/
theorem c9_witness :
    (semInit 5).inflight ≤ CONCURRENT_DOWNLOADS ∧
    (⟨0, CONCURRENT_DOWNLOADS - 1, 1⟩ : SemState).inflight =
      CONCURRENT_DOWNLOADS - 1 :=
  ⟨c9_concurrency_cap.1 5 (semInit 5) SemReach.refl,
   c9_concurrency_cap.2 ⟨0, CONCURRENT_DOWNLOADS, 0⟩
     ⟨0, CONCURRENT_DOWNLOADS - 1, 1⟩ rfl (SemStep.finish (by decide))⟩

/-- C10: relative references inside a fetched stylesheet are resolved
against the page URL, not the stylesheet URL: every reference set
extracted from a stylesheet enters the asset set resolved via
`extract_css_urls_from_text(web_url, text)`, and on the demo run —
page `http://ex.com/`, stylesheet `http://cdn.example/css/style.css`
containing `url(icon.svg)` — the asset set receives
`http://ex.com/icon.svg` and not `http://cdn.example/css/icon.svg`,
the resolution against the stylesheet URL, which differs. -/
theorem c10_css_refs_resolved_against_page :
    (∀ (cfg : RunCfg) (u t r : Chars), u ∈ cfg.cssLinks →
      cfg.cssFetch u = some t →
      r ∈ extract_css_urls_from_text cfg.webUrl t → r ∈ cssAssetsOf cfg) ∧
    cssAssetsOf demoCfg = ["http://ex.com/icon.svg".toList] ∧
    urljoinL "http://cdn.example/css/style.css".toList "icon.svg".toList =
      "http://cdn.example/css/icon.svg".toList ∧
    "http://cdn.example/css/icon.svg".toList ∉ cssAssetsOf demoCfg ∧
    "http://ex.com/icon.svg".toList ∈ discoveredAssets demoCfg := by
  refine ⟨?_, by decide, by decide, by decide, by decide⟩
  intro cfg u t r hu ht hr
  unfold cssAssetsOf
  refine List.mem_flatMap.mpr ⟨u, hu, ?_⟩
  rw [ht]
  exact hr

/-- Witness for C10: the demo stylesheet's `icon.svg` reference reaches
the asset set as `http://ex.com/icon.svg`. -/
theorem c10_witness :
    "http://ex.com/icon.svg".toList ∈ cssAssetsOf demoCfg :=
  c10_css_refs_resolved_against_page.1 demoCfg
    "http://cdn.example/css/style.css".toList
    "body color: red; background: url(icon.svg);".toList
    "http://ex.com/icon.svg".toList
    (by decide) (by decide) (by decide)

theorem joinPath_assoc {n : Chars} (hn : n ≠ []) (base x : Chars) :
    joinPath base (joinPath n x) = joinPath (joinPath base n) x := by
  unfold joinPath
  by_cases hb : base = [] <;> simp [hb, hn]

theorem walkFiles_eq (t : FTree) :
    ∀ base, t.wfT → walkFiles base t = (relFiles t).map (joinPath base) := by
  induction t with
  | nil => intro base _; rfl
  | file n rest ih =>
    intro base hw
    simp only [walkFiles, relFiles, List.map_cons]
    rw [ih base hw]
  | dir n contents rest ih1 ih2 =>
    intro base hw
    obtain ⟨hn, hwc, hwr⟩ := hw
    simp only [walkFiles, relFiles, List.map_append, List.map_map]
    rw [ih1 _ hwc, ih2 _ hwr]
    congr 1
    refine List.map_congr_left ?_
    intro x _
    exact (joinPath_assoc hn base x).symm

theorem relpath_joinPath {root : Chars} (hr : root ≠ []) (p : Chars) :
    relpath (joinPath root p) root = p := by
  unfold relpath joinPath
  rw [if_neg hr]
  have hsplit : root ++ '/' :: p = (root ++ ['/']) ++ p := by simp
  have hpre : (root ++ ['/']).isPrefixOf (root ++ '/' :: p) = true := by
    rw [hsplit]
    exact List.isPrefixOf_iff_prefix.mpr (List.prefix_append _ _)
  rw [hpre]
  simp only [if_true]
  rw [hsplit]
  have hlen : root.length + 1 = (root ++ ['/']).length := by simp
  rw [hlen, List.drop_left]

/-- C8: after a successful packaging, the zip contains exactly one entry
per file present under the workspace at packaging time — each walked
file becomes the entry named by its path relative to the workspace
root — and when the manifest write succeeded, `info.json` is among the
workspace files at packaging time (the manifest is written before
archiving). -/
theorem c8_zip_every_file (root : Chars) (t : FTree) (hr : root ≠ [])
    (hw : t.wfT) :
    zipEntries root t = relFiles t ∧
    (∀ cfg : RunCfg, cfg.manifestOk = true →
      "info.json".toList ∈ workspaceFiles cfg) := by
  constructor
  · unfold zipEntries
    rw [walkFiles_eq t root hw, List.map_map]
    refine Eq.trans (List.map_congr_left ?_) (List.map_id _)
    intro p _
    exact relpath_joinPath hr p
  · intro cfg hm
    unfold workspaceFiles
    simp [hm]

/-- A concrete packaging-time workspace: the rewritten page, one asset
in its host directory, and the manifest. -/
def demoTree : FTree :=
  FTree.file "index.html".toList
    (FTree.dir "ex.com".toList (FTree.file "a.png".toList FTree.nil)
      (FTree.file "info.json".toList FTree.nil))

/-- Witness for C8: the demo workspace under `/tmp/stark_clone_1`. -/
theorem c8_witness :
    zipEntries "/tmp/stark_clone_1".toList demoTree = relFiles demoTree ∧
    (∀ cfg : RunCfg, cfg.manifestOk = true →
      "info.json".toList ∈ workspaceFiles cfg) :=
  c8_zip_every_file "/tmp/stark_clone_1".toList demoTree (by decide)
    ⟨by decide, trivial, trivial⟩

/-- C2 counterexample: the anchor `href`
`http://ex.com/page?f=a.css` — whose resolved path component `/page`
has no static-resource extension, the extension occurring only in the
query string — is nevertheless added to the asset set, because the
filter regex searches the whole raw href.  This refutes the claim that
the href is included iff the URL's path component has a
static-resource extension. -/
theorem c2_counterexample :
    anchorHrefAssets "http://ex.com/".toList
        "http://ex.com/page?f=a.css".toList =
      ["http://ex.com/page?f=a.css".toList] ∧
    pathHasStaticExt (urljoinL "http://ex.com/".toList
      "http://ex.com/page?f=a.css".toList) = false := by
  constructor
  · decide
  · decide

theorem searchStaticExt_iff (l : Chars) :
    searchStaticExt l = true ↔
      ∃ i ext, ext ∈ staticExts ∧ (l.drop i).head? = some '.' ∧
        ext.isPrefixOf (((l.drop i).drop 1).map Char.toLower) = true := by
  induction l with
  | nil =>
    simp [searchStaticExt]
  | cons c rest ih =>
    simp only [searchStaticExt, Bool.or_eq_true, Bool.and_eq_true,
      decide_eq_true_eq]
    constructor
    · rintro (⟨hc, hm⟩ | hs)
      · unfold extMatchAt at hm
        rcases List.any_eq_true.mp hm with ⟨ext, hext, hpre⟩
        exact ⟨0, ext, hext, by simp [hc], by simpa using hpre⟩
      · rcases ih.mp hs with ⟨i, ext, h1, h2, h3⟩
        exact ⟨i + 1, ext, h1, by simpa using h2, by simpa using h3⟩
    · rintro ⟨i, ext, h1, h2, h3⟩
      cases i with
      | zero =>
        left
        simp only [List.drop_zero, List.head?_cons, Option.some_inj] at h2
        refine ⟨h2, ?_⟩
        unfold extMatchAt
        refine List.any_eq_true.mpr ⟨ext, h1, ?_⟩
        simpa using h3
      | succ i =>
        right
        refine ih.mpr ⟨i, ext, h1, ?_, ?_⟩
        · simpa using h2
        · simpa using h3

/-- C2 (amended): a non-empty anchor `href` is added to the asset set
(resolved against the base URL) if and only if the *raw href string*
contains, anywhere — also in its query, fragment or a non-final path
segment, and also as a prefix of a longer extension — a dot followed
(case-insensitively) by one of css, js, png, jpg, jpeg, gif, svg, woff,
woff2, ttf, eot, mp4, webm, ico; an anchor contributes either that one
resolved URL or nothing. -/
theorem c2_anchor_filter_amended (base href : Chars) :
    (anchorHrefAssets base href = [urljoinL base href] ↔
      href ≠ [] ∧ ∃ i ext, ext ∈ staticExts ∧
        (href.drop i).head? = some '.' ∧
        ext.isPrefixOf (((href.drop i).drop 1).map Char.toLower) = true) ∧
    (anchorHrefAssets base href = [urljoinL base href] ∨
      anchorHrefAssets base href = []) := by
  constructor
  · unfold anchorHrefAssets
    split
    case isTrue hc =>
      exact iff_of_true rfl ⟨hc.1, (searchStaticExt_iff href).mp hc.2⟩
    case isFalse hc =>
      refine iff_of_false (by simp) ?_
      intro hcon
      exact hc ⟨hcon.1, (searchStaticExt_iff href).mpr hcon.2⟩
  · unfold anchorHrefAssets
    split
    · exact Or.inl rfl
    · exact Or.inr rfl

/-- Witness for C2: `a.css` is included (the dot-extension occurs at
position 1 of the raw href), resolved against the page URL. -/
theorem c2_witness :
    anchorHrefAssets "http://ex.com/".toList "a.css".toList =
      [urljoinL "http://ex.com/".toList "a.css".toList] :=
  (c2_anchor_filter_amended "http://ex.com/".toList "a.css".toList).1.mpr
    ⟨by decide, 1, "css".toList, by decide, by decide, by decide⟩

/-- C7 counterexample: an element carrying an *empty* `srcset`
attribute is not skipped: the rewrite loop turns the empty value into
the local mapping of the page URL itself (`ex.com/index.html` for base
`http://ex.com/`), refuting "every element whose target attribute is
empty or missing is skipped, left unchanged". -/
theorem c7_counterexample :
    rewriteSrcsetVal "http://ex.com/".toList [] = "ex.com/index.html".toList ∧
    "ex.com/index.html".toList ≠ ([] : Chars) := by
  constructor
  · decide
  · decide

theorem takeWhile_all_append {p : Char → Bool} {v : Chars}
    (hv : ∀ c ∈ v, p c = true) {r0 : Char} (hr : p r0 = false) (rest : Chars) :
    (v ++ r0 :: rest).takeWhile p = v ∧
    (v ++ r0 :: rest).dropWhile p = r0 :: rest := by
  induction v with
  | nil => simp [List.takeWhile_cons, List.dropWhile_cons, hr]
  | cons a t ih =>
    have ha : p a = true := hv a (by simp)
    have ih2 := ih (fun c hc => hv c (by simp [hc]))
    simp only [List.cons_append, List.takeWhile_cons, List.dropWhile_cons, ha,
      if_true]
    exact ⟨by rw [ih2.1], by rw [ih2.2]⟩

theorem rewriteStyleGo_copy {b : Chars} {pre : Chars}
    (hp : ∀ c ∈ pre, c ≠ 'u') (rest : Chars) :
    rewriteStyleGo b 0 (pre ++ rest) = pre ++ rewriteStyleGo b 0 rest := by
  induction pre with
  | nil => rfl
  | cons c t ih =>
    have hc : ¬(c = 'u') := hp c (by simp)
    have ih2 := ih (fun d hd => hp d (by simp [hd]))
    simp only [List.cons_append, rewriteStyleGo, hc, false_and, if_false]
    exact congrArg (fun l => c :: l) ih2

theorem rewriteStyleGo_skip {b : Chars} (xs rest : Chars) :
    rewriteStyleGo b xs.length (xs ++ rest) = rewriteStyleGo b 0 rest := by
  induction xs with
  | nil => rfl
  | cons x t ih =>
    simp only [List.length_cons, List.cons_append, rewriteStyleGo]
    exact ih

theorem rewriteStyleGo_match {b : Chars} (v post : Chars) (hv : v ≠ [])
    (hp : ')' ∉ v) :
    rewriteStyleGo b 0 ("url(".toList ++ v ++ ')' :: post) =
      "url(".toList ++ sq ::
        (safeFilenameL (urljoinL b (stripQuoteSpace v)) ++
          sq :: ')' :: rewriteStyleGo b 0 post) := by
  have hshape : "url(".toList ++ v ++ ')' :: post =
      'u' :: ("rl(".toList ++ (v ++ ')' :: post)) := by simp
  have hsplit := takeWhile_all_append
    (show ∀ c ∈ v, (fun d => decide ¬(d = ')')) c = true from fun c hc => by
      simp only [decide_eq_true_eq]
      intro he
      exact hp (he ▸ hc))
    (show (fun d => decide ¬(d = ')')) ')' = false from by simp) post
  rw [hshape]
  rw [show rewriteStyleGo b 0 ('u' :: ("rl(".toList ++ (v ++ ')' :: post))) =
      if 'u' = 'u' ∧ "rl(".toList.isPrefixOf ("rl(".toList ++ (v ++ ')' :: post)) then
        (let cap := (("rl(".toList ++ (v ++ ')' :: post)).drop 3).takeWhile
            (fun d => d ≠ ')')
         match (("rl(".toList ++ (v ++ ')' :: post)).drop 3).dropWhile
            (fun d => d ≠ ')') with
         | ')' :: _ =>
           if cap = [] then
             'u' :: rewriteStyleGo b 0 ("rl(".toList ++ (v ++ ')' :: post))
           else
             "url(".toList ++ sq ::
               (safeFilenameL (urljoinL b (stripQuoteSpace cap)) ++
                 sq :: ')' :: rewriteStyleGo b (cap.length + 4)
                   ("rl(".toList ++ (v ++ ')' :: post)))
         | _ => 'u' :: rewriteStyleGo b 0 ("rl(".toList ++ (v ++ ')' :: post)))
      else 'u' :: rewriteStyleGo b 0 ("rl(".toList ++ (v ++ ')' :: post))
    from rfl]
  have hpref : "rl(".toList.isPrefixOf ("rl(".toList ++ (v ++ ')' :: post)) = true :=
    List.isPrefixOf_iff_prefix.mpr (List.prefix_append _ _)
  have hdrop : ("rl(".toList ++ (v ++ ')' :: post)).drop 3 = v ++ ')' :: post := by
    rw [show (3 : Nat) = "rl(".toList.length from rfl, List.drop_left]
  rw [if_pos ⟨rfl, hpref⟩, hdrop]
  rw [hsplit.2, hsplit.1]
  change (if v = [] then
      'u' :: rewriteStyleGo b 0 ("rl(".toList ++ (v ++ ')' :: post))
    else
      "url(".toList ++ sq ::
        (safeFilenameL (urljoinL b (stripQuoteSpace v)) ++
          sq :: ')' :: rewriteStyleGo b (v.length + 4)
            ("rl(".toList ++ (v ++ ')' :: post)))) = _
  rw [if_neg hv]
  rw [show "rl(".toList ++ (v ++ ')' :: post) =
      ("rl(".toList ++ v ++ [')']) ++ post from by simp]
  rw [show v.length + 4 = ("rl(".toList ++ v ++ [')']).length from by simp]
  rw [rewriteStyleGo_skip]

/-- C7 (amended): each non-empty `img src`/`script src`/`link href`/
`source src`/`video poster` value `v` is replaced by exactly
`safe_filename_from_url(urljoin(web_url, v))` — the mapping the download
stage used — and an empty or missing such attribute is left unchanged;
each `url(...)` occurrence in an inline style is likewise replaced by
that mapping of its cleaned reference, an empty style left unchanged;
but `srcset` differs: *every* comma-separated entry of a present
`srcset` attribute, including empty entries and the single empty entry
of an empty attribute, is replaced by the mapping of its first token
(descriptors dropped), an empty entry becoming the mapping of the page
URL itself. -/
theorem c7_rewriter_uses_mapper :
    (∀ b : Chars, rewriteAttrVal b [] = []) ∧
    (∀ b v : Chars, v ≠ [] →
      rewriteAttrVal b v = safeFilenameL (urljoinL b v)) ∧
    (∀ b ss : Chars, rewriteSrcsetVal b ss =
      joinCommaSpace ((splitOnCharL ',' ss).map
        (fun part => safeFilenameL (urljoinL b (srcsetFirstTok part))))) ∧
    rewriteSrcsetVal "http://ex.com/".toList [] =
      safeFilenameL "http://ex.com/".toList ∧
    (∀ b : Chars, rewriteStyleVal b [] = []) ∧
    (∀ (b pre v post : Chars), (∀ c ∈ pre, c ≠ 'u') → v ≠ [] → ')' ∉ v →
      rewriteStyleVal b (pre ++ ("url(".toList ++ v ++ ')' :: post)) =
        pre ++ ("url(".toList ++ sq ::
          (safeFilenameL (urljoinL b (stripQuoteSpace v)) ++
            sq :: ')' :: rewriteStyleVal b post))) := by
  refine ⟨fun b => rfl, ?_, fun b ss => rfl, by decide, fun b => rfl, ?_⟩
  · intro b v hv
    unfold rewriteAttrVal
    rw [if_neg hv]
  · intro b pre v post hpre hv hp
    unfold rewriteStyleVal
    rw [rewriteStyleGo_copy hpre]
    rw [rewriteStyleGo_match v post hv hp]

/-- Witness for C7: a concrete attribute value and a concrete inline
style are rewritten through the mapper. -/
theorem c7_witness :
    rewriteAttrVal "http://ex.com/".toList "/b.png".toList =
      safeFilenameL (urljoinL "http://ex.com/".toList "/b.png".toList) ∧
    rewriteStyleVal "http://ex.com/".toList
        ("color:".toList ++
          ("url(".toList ++ "/b.png".toList ++ ')' :: ";".toList)) =
      "color:".toList ++ ("url(".toList ++ sq ::
        (safeFilenameL (urljoinL "http://ex.com/".toList
            (stripQuoteSpace "/b.png".toList)) ++
          sq :: ')' :: rewriteStyleVal "http://ex.com/".toList ";".toList)) :=
  ⟨c7_rewriter_uses_mapper.2.1 "http://ex.com/".toList "/b.png".toList (by decide),
   c7_rewriter_uses_mapper.2.2.2.2.2 "http://ex.com/".toList
     "color:".toList "/b.png".toList ";".toList
     (by decide) (by decide) (by decide)⟩

theorem mem_of_getLast?_aux {l : Chars} {a : Char} (h : l.getLast? = some a) :
    a ∈ l := by
  rcases List.getLast?_eq_some_iff.mp h with ⟨l2, rfl⟩
  simp

theorem parse_netloc_no_slash (d url : Chars) :
    '/' ∉ (urlparseWithL d url).netloc := by
  intro hmem
  simp only [urlparseWithL] at hmem
  split at hmem <;> (try split at hmem) <;>
    first
      | (have h2 := List.mem_takeWhile_imp hmem
         simp at h2)
      | simp at hmem

theorem lstripSlash_ne_nil {l : Chars} (h0 : l ≠ [])
    (h1 : l.getLast? ≠ some '/') : lstripSlashL l ≠ [] := by
  induction l with
  | nil => exact absurd rfl h0
  | cons a t ih =>
    unfold lstripSlashL
    rw [List.dropWhile_cons]
    split
    case isTrue ha =>
      cases t with
      | nil =>
        simp only [decide_eq_true_eq] at ha
        exact absurd (by rw [ha]; rfl) h1
      | cons b t2 =>
        refine ih (by simp) ?_
        rw [List.getLast?_cons_cons] at h1
        exact h1
    case isFalse ha => simp

theorem lstrip_not_slashPre (l : Chars) :
    ['/'].isPrefixOf (lstripSlashL l) = false := by
  induction l with
  | nil => rfl
  | cons a t ih =>
    unfold lstripSlashL at ih ⊢
    rw [List.dropWhile_cons]
    split
    case isTrue ha => exact ih
    case isFalse ha =>
      simp only [decide_eq_true_eq] at ha
      simp [List.isPrefixOf, beq_iff_eq]
      intro he
      exact absurd he.symm ha

theorem host_not_endsSlash {netloc : Chars} (h : '/' ∉ netloc) :
    endsSlashL (netloc.map (fun c => if c = ':' then '_' else c)) = false := by
  unfold endsSlashL
  rw [decide_eq_false_iff_not]
  intro hl
  rw [List.getLast?_map] at hl
  cases hgl : netloc.getLast? with
  | none => rw [hgl] at hl; exact absurd hl (by simp)
  | some a =>
    rw [hgl] at hl
    have hl2 : (if a = ':' then '_' else a) = '/' := Option.some.inj hl
    by_cases ha : a = ':'
    · rw [if_pos ha] at hl2
      exact absurd hl2 (by decide)
    · rw [if_neg ha] at hl2
      exact h (hl2 ▸ mem_of_getLast?_aux hgl)

theorem join_eq_claim {host f : Chars} (hh : endsSlashL host = false)
    (hf : ['/'].isPrefixOf f = false) :
    pyPathJoin host f = (if host = [] then [] else host ++ ['/']) ++ f := by
  unfold pyPathJoin
  rw [show (('/' :: []).isPrefixOf f) = ['/'].isPrefixOf f from rfl, hf]
  by_cases h0 : host = []
  · simp [h0]
  · simp [h0, hh]

theorem mapperFilename_eq (path : Chars) :
    mapperFilename path = claimFilename path := by
  simp only [mapperFilename, claimFilename]
  by_cases hp : path = []
  · subst hp
    decide
  · by_cases he : endsSlashL path = true
    · rw [if_neg hp, if_pos he, if_pos (Or.inr he)]
      rw [if_neg ?hne]
      case hne =>
        apply lstripSlash_ne_nil (by simp)
        rw [List.getLast?_append]
        rw [show ("index.html".toList.getLast? : Option Char) = some 'l' from by decide]
        simp
    · rw [if_neg hp, if_neg he]
      rw [if_neg (show ¬(path = [] ∨ endsSlashL path = true) from
        fun hor => hor.elim hp he)]
      rw [if_neg ?hne]
      case hne =>
        apply lstripSlash_ne_nil hp
        intro hgl
        apply he
        unfold endsSlashL
        simp [hgl]

theorem mapperFilename_not_slashPre (path : Chars) :
    ['/'].isPrefixOf (mapperFilename path) = false := by
  simp only [mapperFilename]
  generalize (if endsSlashL (if path = [] then ['/'] else path) = true
      then (if path = [] then ['/'] else path) ++ "index.html".toList
      else (if path = [] then ['/'] else path)) = p1
  split
  · decide
  · exact lstrip_not_slashPre _

theorem safeFilename_eq_claim (l : Chars) : safeFilenameL l = claimLocalPathL l := by
  simp only [safeFilenameL, claimLocalPathL]
  have hns : '/' ∉ (urlparseL l).netloc := parse_netloc_no_slash [] l
  have hh := host_not_endsSlash hns
  have hjoin := join_eq_claim hh
    (mapperFilename_not_slashPre (urlparseL l).path)
  rw [hjoin, mapperFilename_eq]
  by_cases hq : (urlparseL l).query = []
  · simp [hq]
  · simp [hq]

/-- C3: `safe_filename_from_url` is a pure, deterministic function of
the URL string, and on every URL it computes exactly the path the claim
describes: the host (with `:` replaced by `_`) joined with the URL's
path component (with `index.html` supplied when the path is empty or
ends with `/`), the characters `\ : * ? " < > |` each replaced by `_`,
and — exactly when a query string is present — `_` plus the query's
non-alphanumeric-to-`_` fingerprint truncated to 40 characters
appended. -/
theorem c3_mapper_matches_spec (url : String) :
    safe_filename_from_url url = claimLocalPath url ∧
    ∀ url2 : String, url = url2 →
      safe_filename_from_url url = safe_filename_from_url url2 := by
  refine ⟨?_, fun url2 h => by rw [h]⟩
  unfold safe_filename_from_url claimLocalPath
  rw [safeFilename_eq_claim]

/-- Witness for C3: a URL with port, trailing slash and query. -/
theorem c3_witness :
    safe_filename_from_url "http://ex.com:8080/x/?v=1&k=2" =
      claimLocalPath "http://ex.com:8080/x/?v=1&k=2" ∧
    safe_filename_from_url "http://ex.com/a.png" =
      safe_filename_from_url "http://ex.com/a.png" :=
  ⟨(c3_mapper_matches_spec "http://ex.com:8080/x/?v=1&k=2").1,
   (c3_mapper_matches_spec "http://ex.com/a.png").2 "http://ex.com/a.png" rfl⟩

end Cloner
